import Mathlib

/-!
# Package `load` of nri-flex: status counters, metrics store, `Refresh`

A state-passing embedding of `internal/load/load.go`.  The package state is the
three package variables the operations touch: `FlexStatusCounter` (a mutex and a
`map[string]int`), `MetricsStore` (a mutex and a `[]Metrics`) and `Args`.

Modelling conventions.

* Go `int` is taken at its 64-bit width: values are `Int`, and `++` wraps with an
  explicit `% 2^64` (`wrapInt`).
* A Go map is an association list; `none` is the nil map.  Reading a nil map
  gives the zero value, writing to it panics (`Err.nilMapWrite`).
* A slice is a `List`; the nil slice and the empty slice are both `[]`.
* `sync.RWMutex` is only ever taken with `Lock`/`Unlock`, so it is a `Bool`.
  In a sequential run `Lock` on a held mutex never returns (`Err.deadlock`) and
  `Unlock` on a free mutex is a fatal error (`Err.unlockOfUnlocked`).
* `history` is a ghost variable: every write to one of the two shared structures
  records which structure was written and whether its mutex was held.
* `interface{}` values and the embedded `sdkArgs.DefaultArgumentList` come from
  outside the package and are type parameters `V` and `D`.
-/

set_option linter.dupNamespace false

namespace Load

/-! ## Machine integers -/

/-- Largest value of a 64-bit Go `int`. -/
def maxInt : Int := 9223372036854775807

/-- Smallest value of a 64-bit Go `int`. -/
def minInt : Int := -9223372036854775808

/-- Two's complement wrap-around of a 64-bit signed integer. -/
def wrapInt (x : Int) : Int :=
  (x + 9223372036854775808) % 18446744073709551616 - 9223372036854775808

/-- A value that fits a Go `int`. -/
def InRange (x : Int) : Prop := minInt ≤ x ∧ x ≤ maxInt

instance (x : Int) : Decidable (InRange x) := by
  unfold InRange; exact inferInstance

/-! ## Data model -/

/-- Run-time failures of the modelled operations. -/
inductive Err where
  | nilMapWrite
  | deadlock
  | unlockOfUnlocked
  deriving DecidableEq, Repr

/-- A `map[string]int`; `none` is the nil map. -/
abbrev CounterMap := Option (List (String × Int))

/-- The expression `m[key]`: the zero value when the key is absent or the map is nil. -/
def mapIndex (m : CounterMap) (key : String) : Int :=
  match m with
  | none => 0
  | some l => (l.lookup key).getD 0

/-- The statement `m[key] = v`: panics on the nil map. -/
def mapAssign (m : CounterMap) (key : String) (v : Int) : Except Err CounterMap :=
  match m with
  | none => .error .nilMapWrite
  | some l => .ok (some ((key, v) :: l.filter (fun p => p.1 != key)))

/-- The keys present in a map. -/
def mapKeys (m : CounterMap) : List String :=
  match m with
  | none => []
  | some l => l.map Prod.fst

/-- The type `Metrics`: one dimensional-metric batch. -/
structure Metrics (V : Type) where
  TimestampMs : Int
  IntervalMs : Int
  CommonAttributes : Option (List (String × V))
  Metrics : List (Option (List (String × V)))

/-- The type `ArgumentList`. -/
structure ArgumentList (D : Type) where
  DefaultArgumentList : D
  ForceLogEvent : Bool
  OverrideIPMode : String
  Local : Bool
  ConfigFile : String
  ConfigDir : String
  ContainerDiscoveryDir : String
  ContainerDiscovery : Bool
  DockerAPIVersion : String
  EventLimit : Int
  Entity : String
  InsightsURL : String
  InsightsAPIKey : String
  InsightsOutput : Bool
  MetricAPIUrl : String
  MetricAPIKey : String

/-- The variable `FlexStatusCounter`: a mutex and the counter map. -/
structure StatusCounter where
  locked : Bool
  M : CounterMap

/-- The variable `MetricsStore`: a mutex and the stored batches. -/
structure Store (V : Type) where
  locked : Bool
  Data : List (Metrics V)

/-- The two lock-protected structures of the package. -/
inductive Shared where
  | statusCounters
  | metricsStore
  deriving DecidableEq, Repr

/-- Ghost record of one write to a shared structure. -/
structure WriteEvent where
  target : Shared
  lockHeld : Bool
  deriving DecidableEq, Repr

/-- Package state. -/
structure State (D V : Type) where
  FlexStatusCounter : StatusCounter
  MetricsStore : Store V
  Args : ArgumentList D
  history : List WriteEvent

/-- Zero value of `ArgumentList`, given the zero value of the embedded SDK struct. -/
def ArgumentList.zero {D : Type} (d : D) : ArgumentList D :=
  { DefaultArgumentList := d, ForceLogEvent := false, OverrideIPMode := "", Local := false,
    ConfigFile := "", ConfigDir := "", ContainerDiscoveryDir := "",
    ContainerDiscovery := false, DockerAPIVersion := "", EventLimit := 0, Entity := "",
    InsightsURL := "", InsightsAPIKey := "", InsightsOutput := false, MetricAPIUrl := "",
    MetricAPIKey := "" }

/-- State after package initialisation: `M: make(map[string]int)`, `Data` nil, `Args` zero. -/
def initState {D : Type} (V : Type) (d : D) : State D V :=
  { FlexStatusCounter := { locked := false, M := some [] },
    MetricsStore := { locked := false, Data := [] },
    Args := ArgumentList.zero d,
    history := [] }

/-! ## Statements -/

section Statements
variable {D V : Type}

/-- The call `FlexStatusCounter.Lock()`. -/
def counterLock (s : State D V) : Except Err (State D V) :=
  if s.FlexStatusCounter.locked then .error .deadlock
  else .ok { s with FlexStatusCounter := { s.FlexStatusCounter with locked := true } }

/-- The call `FlexStatusCounter.Unlock()`. -/
def counterUnlock (s : State D V) : Except Err (State D V) :=
  if s.FlexStatusCounter.locked then
    .ok { s with FlexStatusCounter := { s.FlexStatusCounter with locked := false } }
  else .error .unlockOfUnlocked

/-- The call `MetricsStore.Lock()`. -/
def storeLock (s : State D V) : Except Err (State D V) :=
  if s.MetricsStore.locked then .error .deadlock
  else .ok { s with MetricsStore := { s.MetricsStore with locked := true } }

/-- The call `MetricsStore.Unlock()`. -/
def storeUnlock (s : State D V) : Except Err (State D V) :=
  if s.MetricsStore.locked then
    .ok { s with MetricsStore := { s.MetricsStore with locked := false } }
  else .error .unlockOfUnlocked

/-- Ghost step: note a write to the counter map. -/
def noteCounterWrite (s : State D V) : State D V :=
  { s with history := s.history ++ [⟨.statusCounters, s.FlexStatusCounter.locked⟩] }

/-- Ghost step: note a write to the store slice. -/
def noteStoreWrite (s : State D V) : State D V :=
  { s with history := s.history ++ [⟨.metricsStore, s.MetricsStore.locked⟩] }

/-- The statement `FlexStatusCounter.M[key] = v`. -/
def counterAssign (key : String) (v : Int) (s : State D V) : Except Err (State D V) := do
  let m ← mapAssign s.FlexStatusCounter.M key v
  let s := noteCounterWrite s
  pure { s with FlexStatusCounter := { s.FlexStatusCounter with M := m } }

/-- The statement `FlexStatusCounter.M[key]++`. -/
def counterIncr (key : String) (s : State D V) : Except Err (State D V) :=
  counterAssign key (wrapInt (mapIndex s.FlexStatusCounter.M key + 1)) s

/-- The statement `FlexStatusCounter.M = make(map[string]int)`. -/
def counterMake (s : State D V) : State D V :=
  let s := noteCounterWrite s
  { s with FlexStatusCounter := { s.FlexStatusCounter with M := some [] } }

/-- The statement `MetricsStore.Data = data`. -/
def storeAssign (data : List (Metrics V)) (s : State D V) : State D V :=
  let s := noteStoreWrite s
  { s with MetricsStore := { s.MetricsStore with Data := data } }

end Statements

/-! ## Operations -/

section Operations
variable {D V : Type}

/-- The function `StatusCounterIncrement`. -/
def StatusCounterIncrement (key : String) (s : State D V) : Except Err (State D V) := do
  let s ← counterLock s
  let s ← counterIncr key s
  counterUnlock s

/-- The function `StatusCounterRead`: the value read and the state left behind. -/
def StatusCounterRead (key : String) (s : State D V) : Except Err (Int × State D V) := do
  let s ← counterLock s
  let value := mapIndex s.FlexStatusCounter.M key
  let s ← counterUnlock s
  pure (value, s)

/-- The function `MetricsStoreAppend`. -/
def MetricsStoreAppend (metrics : Metrics V) (s : State D V) : Except Err (State D V) := do
  let s ← storeLock s
  let s := storeAssign (s.MetricsStore.Data ++ [metrics]) s
  storeUnlock s

/-- The function `MetricsStoreEmpty`. -/
def MetricsStoreEmpty (s : State D V) : Except Err (State D V) := do
  let s ← storeLock s
  let s := storeAssign [] s
  storeUnlock s

/-- The function `Refresh`. -/
def Refresh (s : State D V) : Except Err (State D V) := do
  let s := counterMake s
  let s ← counterAssign "EventCount" 0 s
  let s ← counterAssign "EventDropCount" 0 s
  let s ← counterAssign "ConfigsProcessed" 0 s
  let s := { s with Args := { s.Args with ConfigDir := "" } }
  let s := { s with Args := { s.Args with ConfigFile := "" } }
  let s := { s with Args := { s.Args with ContainerDiscovery := false } }
  let s := { s with Args := { s.Args with ContainerDiscoveryDir := "" } }
  pure s

/-- One call of an operation of the package. -/
inductive Op (V : Type) where
  | increment (key : String)
  | read (key : String)
  | append (metrics : Metrics V)
  | empty
  | refresh

/-- Whether the call is a `Refresh`. -/
def Op.isRefresh : Op V → Bool
  | .refresh => true
  | _ => false

/-- Whether the call is a `StatusCounterIncrement`. -/
def Op.isIncrement : Op V → Bool
  | .increment _ => true
  | _ => false

/-- Effect of one call on the package state (a value read is dropped). -/
def Op.step (o : Op V) (s : State D V) : Except Err (State D V) :=
  match o with
  | .increment key => StatusCounterIncrement key s
  | .read key => (StatusCounterRead key s).map Prod.snd
  | .append metrics => MetricsStoreAppend metrics s
  | .empty => MetricsStoreEmpty s
  | .refresh => Refresh s

/-- Effect of a sequence of calls, executed one after the other. -/
def runOps (ops : List (Op V)) (s : State D V) : Except Err (State D V) :=
  match ops with
  | [] => .ok s
  | o :: rest => do
    let s ← o.step s
    runOps rest s

/-- Whether the call is `StatusCounterIncrement(key)`. -/
def Op.incrementsKey (o : Op V) (key : String) : Bool :=
  match o with
  | .increment k => decide (k = key)
  | _ => false

/-- Number of `StatusCounterIncrement(key)` calls in a sequence. -/
def countIncrements (key : String) (ops : List (Op V)) : Nat :=
  ops.countP (fun o => o.incrementsKey key)

/-- `Refresh`, then the calls of `ops`, then `StatusCounterRead(key)`: the value read. -/
def readAfterRefresh (ops : List (Op V)) (key : String) (s : State D V) : Except Err Int := do
  let s ← Refresh s
  let s ← runOps ops s
  let r ← StatusCounterRead key s
  pure r.1

/-- States reachable from the initial state by calls of the five operations. -/
inductive Reachable (d : D) : State D V → Prop where
  | init : Reachable d (initState V d)
  | step (o : Op V) (s t : State D V) : Reachable d s → o.step s = .ok t → Reachable d t

end Operations

/-! ## State predicates -/

section Predicates
variable {D V : Type}

/-- The counter value the package reports for `key`. -/
def counterValue (s : State D V) (key : String) : Int :=
  mapIndex s.FlexStatusCounter.M key

/-- Neither mutex is held: the state between two calls. -/
def Idle (s : State D V) : Prop :=
  s.FlexStatusCounter.locked = false ∧ s.MetricsStore.locked = false

/-- The counter map is not the nil map. -/
def Allocated (s : State D V) : Prop :=
  s.FlexStatusCounter.M.isSome = true

/-- Every stored counter fits a Go `int`. -/
def WellTyped (s : State D V) : Prop :=
  match s.FlexStatusCounter.M with
  | none => True
  | some l => ∀ p ∈ l, InRange p.2

/-- The map `Refresh` builds. -/
def refreshedMap : List (String × Int) :=
  [("ConfigsProcessed", 0), ("EventDropCount", 0), ("EventCount", 0)]

/-- Every recorded write in `h` was made with the mutex of its structure held. -/
def allGuarded (h : List WriteEvent) : Bool :=
  h.all (fun e => e.lockHeld)

end Predicates

/-! ## Sample values -/

/-- A batch with the given timestamp and no entries. -/
def sampleBatch (ts : Int) : Metrics Unit :=
  { TimestampMs := ts, IntervalMs := 0, CommonAttributes := none, Metrics := [] }

/-- A state between calls with two counters set and two batches stored. -/
def sampleState : State Unit Unit :=
  { FlexStatusCounter := { locked := false, M := some [("EventCount", 41), ("EventDropCount", 7)] },
    MetricsStore := { locked := false, Data := [sampleBatch 1, sampleBatch 2] },
    Args := { ArgumentList.zero () with ConfigDir := "flexConfigs/", EventLimit := 500 },
    history := [] }

/-- Ten batches, told apart by their timestamps. -/
def tenBatches : List (Metrics Unit) :=
  (List.range 10).map (fun i => sampleBatch i)

/-- The initial state after one `StatusCounterIncrement("EventCount")`. -/
def sampleReached : State Unit Unit :=
  { initState Unit () with
    FlexStatusCounter := { locked := false, M := some [("EventCount", 1)] },
    history := [⟨.statusCounters, true⟩] }

/-- A sequence of calls with three increments of EventDropCount. -/
def sampleOps : List (Op Unit) :=
  [.increment "EventDropCount", .read "EventCount", .append (sampleBatch 1),
   .increment "EventDropCount", .empty, .increment "EventCount",
   .increment "EventDropCount"]


/-! ## Arithmetic of wrap-around -/

theorem wrapInt_of_inRange (x : Int) (h : InRange x) : wrapInt x = x := by
  unfold InRange minInt maxInt at h
  unfold wrapInt
  omega

theorem wrapInt_inRange (x : Int) : InRange (wrapInt x) := by
  unfold InRange minInt maxInt wrapInt
  omega

theorem wrapInt_add (x n : Int) : wrapInt (wrapInt x + n) = wrapInt (x + n) := by
  unfold wrapInt
  omega

theorem wrapInt_succ_of_lt (x : Int) (h : InRange x) (hlt : x < maxInt) :
    wrapInt (x + 1) = x + 1 := by
  unfold InRange minInt maxInt at h
  unfold maxInt at hlt
  unfold wrapInt
  omega

/-! ## Association-list maps -/

theorem lookup_filter_ne (l : List (String × Int)) (k k2 : String) (h : k2 ≠ k) :
    (l.filter (fun p => p.1 != k)).lookup k2 = l.lookup k2 := by
  induction l with
  | nil => rfl
  | cons p rest ih =>
    obtain ⟨a, b⟩ := p
    by_cases hak : a = k
    · subst hak
      have hne : (k2 == a) = false := by simpa using h
      simp [List.filter, List.lookup, hne, ih]
    · have hf : (a != k) = true := by simpa using hak
      simp only [List.filter, hf, List.lookup]
      rw [ih]

theorem lookup_mem (l : List (String × Int)) (k : String) (v : Int)
    (h : l.lookup k = some v) : ∃ p ∈ l, p.2 = v := by
  induction l with
  | nil => simp at h
  | cons p rest ih =>
    obtain ⟨a, b⟩ := p
    by_cases hka : (k == a) = true
    · simp [List.lookup, hka] at h
      exact ⟨(a, b), by simp, h⟩
    · have hka2 : (k == a) = false := by simpa using hka
      simp only [List.lookup, hka2] at h
      obtain ⟨p, hp, hv⟩ := ih h
      exact ⟨p, List.mem_cons_of_mem _ hp, hv⟩

theorem mapIndex_assign_same (l : List (String × Int)) (k : String) (v : Int) :
    mapIndex (some ((k, v) :: l.filter (fun p => p.1 != k))) k = v := by
  simp [mapIndex, List.lookup]

theorem mapIndex_assign_other (l : List (String × Int)) (k k2 : String) (v : Int)
    (h : k2 ≠ k) :
    mapIndex (some ((k, v) :: l.filter (fun p => p.1 != k))) k2 = mapIndex (some l) k2 := by
  have hne : (k2 == k) = false := by simpa using h
  simp only [mapIndex, List.lookup, hne]
  rw [lookup_filter_ne l k k2 h]

theorem mapIndex_inRange (l : List (String × Int)) (k : String)
    (h : ∀ p ∈ l, InRange p.2) : InRange (mapIndex (some l) k) := by
  show InRange ((l.lookup k).getD 0)
  cases hl : l.lookup k with
  | none => simp [InRange, minInt, maxInt]
  | some v =>
    obtain ⟨p, hp, hv⟩ := lookup_mem l k v hl
    have hr := h p hp
    rw [hv] at hr
    simpa using hr

/-! ## The operations on an idle state -/

section Evaluation
variable {D V : Type}

theorem increment_eval (key : String) (s : State D V) (l : List (String × Int))
    (hl : s.FlexStatusCounter.locked = false) (hm : s.FlexStatusCounter.M = some l) :
    StatusCounterIncrement key s = .ok
      { s with
        FlexStatusCounter :=
          { locked := false,
            M := some ((key, wrapInt (mapIndex (some l) key + 1))
                  :: l.filter (fun p => p.1 != key)) },
        history := s.history ++ [⟨.statusCounters, true⟩] } := by
  obtain ⟨⟨lk, m⟩, st, args, hist⟩ := s
  simp only at hl hm
  subst hl hm
  rfl

theorem read_eval (key : String) (s : State D V)
    (hl : s.FlexStatusCounter.locked = false) :
    StatusCounterRead key s = .ok (mapIndex s.FlexStatusCounter.M key, s) := by
  obtain ⟨⟨lk, m⟩, st, args, hist⟩ := s
  simp only at hl
  subst hl
  rfl

theorem append_eval (metrics : Metrics V) (s : State D V)
    (hl : s.MetricsStore.locked = false) :
    MetricsStoreAppend metrics s = .ok
      { s with
        MetricsStore := { locked := false, Data := s.MetricsStore.Data ++ [metrics] },
        history := s.history ++ [⟨.metricsStore, true⟩] } := by
  obtain ⟨ctr, ⟨lk, data⟩, args, hist⟩ := s
  simp only at hl
  subst hl
  rfl

theorem empty_eval (s : State D V) (hl : s.MetricsStore.locked = false) :
    MetricsStoreEmpty s = .ok
      { s with
        MetricsStore := { locked := false, Data := [] },
        history := s.history ++ [⟨.metricsStore, true⟩] } := by
  obtain ⟨ctr, ⟨lk, data⟩, args, hist⟩ := s
  simp only at hl
  subst hl
  rfl

theorem refresh_eval (s : State D V) :
    Refresh s = .ok
      { s with
        FlexStatusCounter := { locked := s.FlexStatusCounter.locked, M := some refreshedMap },
        Args := { s.Args with ConfigDir := "", ConfigFile := "", ContainerDiscovery := false,
                              ContainerDiscoveryDir := "" },
        history := s.history ++
          [⟨.statusCounters, s.FlexStatusCounter.locked⟩,
           ⟨.statusCounters, s.FlexStatusCounter.locked⟩,
           ⟨.statusCounters, s.FlexStatusCounter.locked⟩,
           ⟨.statusCounters, s.FlexStatusCounter.locked⟩] } := by
  obtain ⟨⟨lk, m⟩, st, args, hist⟩ := s
  simp [Refresh, counterMake, counterAssign, noteCounterWrite, mapAssign, refreshedMap,
    bind, Except.bind, pure, Except.pure]

end Evaluation


/-! ## One call from an idle state -/

section Steps
variable {D V : Type}

theorem lookup_of_not_mem_keys (l : List (String × Int)) (k : String)
    (h : k ∉ l.map Prod.fst) : l.lookup k = none := by
  induction l with
  | nil => rfl
  | cons p rest ih =>
    obtain ⟨a, b⟩ := p
    simp only [List.map_cons, List.mem_cons, not_or] at h
    have hne : (k == a) = false := by simpa using h.1
    simp only [List.lookup, hne]
    exact ih h.2

theorem increment_spec (key : String) (s : State D V)
    (hl : s.FlexStatusCounter.locked = false) (ha : Allocated s) :
    ∃ t, StatusCounterIncrement key s = .ok t ∧
      t.FlexStatusCounter.locked = false ∧ Allocated t ∧
      t.MetricsStore = s.MetricsStore ∧ t.Args = s.Args ∧
      counterValue t key = wrapInt (counterValue s key + 1) ∧
      ∀ k, k ≠ key → counterValue t k = counterValue s k := by
  unfold Allocated at ha
  obtain ⟨l, hm⟩ := Option.isSome_iff_exists.mp ha
  refine ⟨_, increment_eval key s l hl hm, rfl, rfl, rfl, rfl, ?_, ?_⟩
  · simp only [counterValue, hm]
    exact mapIndex_assign_same l key _
  · intro k hk
    simp only [counterValue, hm]
    exact mapIndex_assign_other l key k _ hk

theorem increment_wellTyped (key : String) (s t : State D V)
    (hl : s.FlexStatusCounter.locked = false) (hw : WellTyped s)
    (hst : StatusCounterIncrement key s = .ok t) : WellTyped t := by
  cases hm : s.FlexStatusCounter.M with
  | none =>
    obtain ⟨⟨lk, m⟩, st, args, hist⟩ := s
    simp only at hl hm
    subst hl hm
    simp [StatusCounterIncrement, counterLock, counterIncr, counterAssign, mapAssign,
      bind, Except.bind] at hst
  | some l =>
    rw [increment_eval key s l hl hm] at hst
    injection hst with hst
    subst hst
    unfold WellTyped at hw ⊢
    rw [hm] at hw
    simp only at hw ⊢
    intro p hp
    rcases List.mem_cons.mp hp with h | h
    · rw [h]
      exact wrapInt_inRange _
    · exact hw p (List.mem_filter.mp h).1

theorem counterValue_inRange (s : State D V) (hw : WellTyped s) (k : String) :
    InRange (counterValue s k) := by
  unfold WellTyped at hw
  unfold counterValue
  cases hm : s.FlexStatusCounter.M with
  | none => simp [mapIndex, InRange, minInt, maxInt]
  | some l =>
    rw [hm] at hw
    exact mapIndex_inRange l k hw

end Steps

/-! ## Sequences of calls -/

section Sequences
variable {D V : Type}

theorem idle_init (d : D) : Idle (initState V d) := ⟨rfl, rfl⟩

theorem step_spec (o : Op V) (s : State D V) (hnr : o.isRefresh = false)
    (hidle : Idle s) (halloc : Allocated s) :
    ∃ t, o.step s = .ok t ∧ Idle t ∧ Allocated t ∧
      (∀ k, counterValue t k =
        if o.incrementsKey k then wrapInt (counterValue s k + 1) else counterValue s k) ∧
      (o.isIncrement = false → t.FlexStatusCounter.M = s.FlexStatusCounter.M) := by
  obtain ⟨hc, hs⟩ := hidle
  cases o with
  | increment key =>
    obtain ⟨t, hrun, hl, ha, hst, _, hkey, hframe⟩ := increment_spec key s hc halloc
    refine ⟨t, hrun, ⟨hl, by rw [hst]; exact hs⟩, ha, ?_, ?_⟩
    · intro k
      by_cases hk : key = k
      · subst hk
        simp [Op.incrementsKey, hkey]
      · have hk2 : k ≠ key := fun h => hk h.symm
        simp [Op.incrementsKey, hk, hframe k hk2]
    · intro h
      simp [Op.isIncrement] at h
  | read key =>
    refine ⟨s, ?_, ⟨hc, hs⟩, halloc, ?_, fun _ => rfl⟩
    · simp [Op.step, read_eval key s hc, Except.map]
    · intro k
      simp [Op.incrementsKey]
  | append metrics =>
    refine ⟨_, append_eval metrics s hs, ⟨hc, rfl⟩, halloc, ?_, fun _ => rfl⟩
    intro k
    simp [Op.incrementsKey, counterValue]
  | empty =>
    refine ⟨_, empty_eval s hs, ⟨hc, rfl⟩, halloc, ?_, fun _ => rfl⟩
    intro k
    simp [Op.incrementsKey, counterValue]
  | refresh => simp [Op.isRefresh] at hnr

theorem refresh_spec (s : State D V) (hidle : Idle s) :
    ∃ t, Refresh s = .ok t ∧ Idle t ∧ Allocated t ∧ ∀ k, counterValue t k = 0 := by
  refine ⟨_, refresh_eval s, ⟨hidle.1, hidle.2⟩, rfl, ?_⟩
  intro k
  simp only [counterValue, mapIndex, refreshedMap, List.lookup]
  split <;> [rfl; (split <;> [rfl; (split <;> rfl)])]

theorem countIncrements_cons (key : String) (o : Op V) (rest : List (Op V)) :
    countIncrements key (o :: rest) =
      countIncrements key rest + if o.incrementsKey key then 1 else 0 := by
  unfold countIncrements
  exact List.countP_cons _ o rest

theorem runOps_counter (key : String) (ops : List (Op V)) :
    ∀ s : State D V, (∀ o ∈ ops, o.isRefresh = false) → Idle s → Allocated s →
      InRange (counterValue s key) →
      ∃ t, runOps ops s = .ok t ∧ Idle t ∧ Allocated t ∧
        counterValue t key = wrapInt (counterValue s key + countIncrements key ops) := by
  induction ops with
  | nil =>
    intro s _ hidle halloc hin
    refine ⟨s, rfl, hidle, halloc, ?_⟩
    simp [countIncrements, wrapInt_of_inRange _ hin]
  | cons o rest ih =>
    intro s hnr hidle halloc hin
    obtain ⟨s1, hstep, hidle1, halloc1, hval, _⟩ :=
      step_spec o s (hnr o (List.mem_cons_self _ _)) hidle halloc
    have hin1 : InRange (counterValue s1 key) := by
      rw [hval key]
      split
      · exact wrapInt_inRange _
      · exact hin
    obtain ⟨t, hrun, hidlet, halloct, hvt⟩ :=
      ih s1 (fun o2 ho2 => hnr o2 (List.mem_cons_of_mem _ ho2)) hidle1 halloc1 hin1
    refine ⟨t, ?_, hidlet, halloct, ?_⟩
    · simp [runOps, hstep, hrun, bind, Except.bind]
    · rw [hvt, hval key]
      rw [countIncrements_cons]
      by_cases hk : o.incrementsKey key = true
      · simp only [hk, if_true]
        rw [wrapInt_add]
        congr 1
        push_cast
        ring
      · simp [hk]

theorem readAfterRefresh_eq (ops : List (Op V)) (key : String) (s : State D V)
    (hidle : Idle s) (hnr : ∀ o ∈ ops, o.isRefresh = false) :
    readAfterRefresh ops key s = .ok (wrapInt (countIncrements key ops)) := by
  obtain ⟨s1, hre, hidle1, halloc1, hzero⟩ := refresh_spec s hidle
  have hin : InRange (counterValue s1 key) := by
    rw [hzero key]
    simp [InRange, minInt, maxInt]
  obtain ⟨t, hrun, hidlet, _, hvt⟩ := runOps_counter key ops s1 hnr hidle1 halloc1 hin
  rw [hzero key, zero_add] at hvt
  simp only [readAfterRefresh, hre, hrun, read_eval key t hidlet.1, bind, Except.bind,
    pure, Except.pure]
  exact congrArg Except.ok hvt

theorem countIncrements_replicate (key : String) (n : Nat) :
    countIncrements key (List.replicate n (Op.increment key : Op V)) = n := by
  induction n with
  | zero => rfl
  | succ m ih =>
    have hk : (Op.increment key : Op V).incrementsKey key = true := by
      simp [Op.incrementsKey]
    rw [List.replicate_succ, countIncrements_cons, ih, hk]
    rfl

theorem countIncrements_append (key : String) (xs ys : List (Op V)) :
    countIncrements key (xs ++ ys) = countIncrements key xs + countIncrements key ys := by
  unfold countIncrements
  exact List.countP_append _ xs ys

theorem isRefresh_replicate (key : String) (n : Nat) :
    ∀ o ∈ List.replicate n (Op.increment key : Op V), o.isRefresh = false := by
  intro o ho
  rw [(List.mem_replicate.mp ho).2]
  rfl

theorem runOps_appends (bs : List (Metrics V)) :
    ∀ s : State D V, s.MetricsStore.locked = false →
      ∃ t, runOps (bs.map Op.append) s = .ok t ∧ t.MetricsStore.locked = false ∧
        t.MetricsStore.Data = s.MetricsStore.Data ++ bs := by
  induction bs with
  | nil =>
    intro s hl
    exact ⟨s, rfl, hl, by simp⟩
  | cons b rest ih =>
    intro s hl
    obtain ⟨t, hrun, hlt, hdata⟩ := ih _ (show
      ({ s with
          MetricsStore := { locked := false, Data := s.MetricsStore.Data ++ [b] },
          history := s.history ++ [⟨.metricsStore, true⟩] } : State D V).MetricsStore.locked
        = false from rfl)
    refine ⟨t, ?_, hlt, ?_⟩
    · simp only [List.map_cons, runOps, Op.step, append_eval b s hl, bind, Except.bind]
      exact hrun
    · rw [hdata]
      simp

end Sequences

/-! ## Claims about single operations -/

section Claims
variable {D V : Type}

/-- C1: on a state between calls (counter mutex free, map allocated, counters of type
`int`), if the counter of `key` is below the largest int then `StatusCounterIncrement key`
returns, leaves the counter of `key` exactly 1 higher (so 1 for a key that was never set)
and leaves the value of every other key unchanged. -/
theorem C1_increment_adds_one (key : String) (s : State D V)
    (hlock : s.FlexStatusCounter.locked = false) (halloc : Allocated s)
    (htyped : WellTyped s) (hlt : counterValue s key < maxInt) :
    ∃ t, StatusCounterIncrement key s = .ok t ∧
      counterValue t key = counterValue s key + 1 ∧
      (key ∉ mapKeys s.FlexStatusCounter.M → counterValue t key = 1) ∧
      ∀ k, k ≠ key → counterValue t k = counterValue s k := by
  obtain ⟨t, hrun, _, _, _, _, hkey, hframe⟩ := increment_spec key s hlock halloc
  have hval : counterValue t key = counterValue s key + 1 := by
    rw [hkey]
    exact wrapInt_succ_of_lt _ (counterValue_inRange s htyped key) hlt
  refine ⟨t, hrun, hval, ?_, hframe⟩
  intro hnot
  rw [hval]
  unfold Allocated at halloc
  obtain ⟨l, hm⟩ := Option.isSome_iff_exists.mp halloc
  rw [hm] at hnot
  have hnone : l.lookup key = none := lookup_of_not_mem_keys l key hnot
  simp [counterValue, mapIndex, hm, hnone]

/-- C3: with the store mutex free, `MetricsStoreAppend m` returns and leaves the store
holding the old content followed by `m`: the length grows by exactly 1, `m` is the last
entry, and every batch already stored keeps its position and its value. -/
theorem C3_append_extends_store (metrics : Metrics V) (s : State D V)
    (hlock : s.MetricsStore.locked = false) :
    ∃ t, MetricsStoreAppend metrics s = .ok t ∧
      t.MetricsStore.Data = s.MetricsStore.Data ++ [metrics] ∧
      t.MetricsStore.Data.length = s.MetricsStore.Data.length + 1 ∧
      t.MetricsStore.Data.getLast? = some metrics ∧
      ∀ i, i < s.MetricsStore.Data.length →
        t.MetricsStore.Data[i]? = s.MetricsStore.Data[i]? := by
  refine ⟨_, append_eval metrics s hlock, rfl, ?_, ?_, ?_⟩
  · simp
  · simp
  · intro i hi
    simp [List.getElem?_append_left hi]

/-- C5: with the store mutex free, `MetricsStoreEmpty` returns and leaves the store with
zero batches, and a `MetricsStoreAppend m` made right after it returns and leaves the
store holding exactly the one batch `m`. -/
theorem C5_empty_resets_store (metrics : Metrics V) (s : State D V)
    (hlock : s.MetricsStore.locked = false) :
    ∃ t, MetricsStoreEmpty s = .ok t ∧
      t.MetricsStore.Data = [] ∧ t.MetricsStore.Data.length = 0 ∧
      ∃ u, MetricsStoreAppend metrics t = .ok u ∧ u.MetricsStore.Data = [metrics] := by
  refine ⟨_, empty_eval s hlock, rfl, rfl, ?_⟩
  exact ⟨_, append_eval metrics _ rfl, rfl⟩

/-- C6: from every state with the counter mutex free, `Refresh` returns and leaves a map
holding exactly the three keys EventCount, EventDropCount and ConfigsProcessed (each once),
every stored value is 0, and `StatusCounterRead` then returns 0 for every key. -/
theorem C6_refresh_resets_counters (s : State D V)
    (hlock : s.FlexStatusCounter.locked = false) :
    ∃ t, Refresh s = .ok t ∧
      (mapKeys t.FlexStatusCounter.M).Perm
        ["EventCount", "EventDropCount", "ConfigsProcessed"] ∧
      (∀ l, t.FlexStatusCounter.M = some l → ∀ p ∈ l, p.2 = 0) ∧
      ∀ key, StatusCounterRead key t = .ok (0, t) := by
  refine ⟨_, refresh_eval s, ?_, ?_, ?_⟩
  · exact List.reverse_perm ["EventCount", "EventDropCount", "ConfigsProcessed"]
  · intro l hl p hp
    simp only [Option.some.injEq] at hl
    subst hl
    simp only [refreshedMap, List.mem_cons, List.mem_singleton, List.not_mem_nil,
      or_false] at hp
    rcases hp with h | h | h <;> rw [h]
  · intro key
    have hz : mapIndex (some refreshedMap) key = 0 := by
      simp only [mapIndex, refreshedMap, List.lookup]
      split <;> [rfl; (split <;> [rfl; (split <;> rfl)])]
    refine (read_eval key _ ?_).trans ?_
    · exact hlock
    · simp only [hz]

/-- C9: `Refresh` always returns; it leaves the Metrics Store (its batches and its mutex)
and the counter mutex as they were, and the arguments are the old ones with ConfigDir,
ConfigFile and ContainerDiscoveryDir set to the empty string and ContainerDiscovery set to
false; in particular EventLimit is unchanged. -/
theorem C9_refresh_frame (s : State D V) :
    ∃ t, Refresh s = .ok t ∧
      t.MetricsStore = s.MetricsStore ∧
      t.MetricsStore.Data = s.MetricsStore.Data ∧
      t.FlexStatusCounter.locked = s.FlexStatusCounter.locked ∧
      t.Args = { s.Args with ConfigDir := "", ConfigFile := "", ContainerDiscovery := false,
                             ContainerDiscoveryDir := "" } ∧
      t.Args.EventLimit = s.Args.EventLimit :=
  ⟨_, refresh_eval s, rfl, rfl, rfl, rfl, rfl⟩

end Claims

/-! ## Claims about sequences of calls, the locks and reachable states -/

section SequenceClaims
variable {D V : Type}

theorem reachable_inv (d : D) (s : State D V) (h : Reachable d s) : Idle s ∧ Allocated s := by
  induction h with
  | init => exact ⟨idle_init d, rfl⟩
  | step o s t _ hstep ih =>
    by_cases hr : o.isRefresh = false
    · obtain ⟨u, hu, hidle, halloc, _⟩ := step_spec o s hr ih.1 ih.2
      rw [hu] at hstep
      injection hstep with hstep
      subst hstep
      exact ⟨hidle, halloc⟩
    · cases o with
      | refresh =>
        obtain ⟨u, hu, hidle, halloc, _⟩ := refresh_spec s ih.1
        have hstep2 : Refresh s = .ok t := hstep
        rw [hu] at hstep2
        injection hstep2 with hstep2
        subst hstep2
        exact ⟨hidle, halloc⟩
      | increment key => exact absurd rfl hr
      | read key => exact absurd rfl hr
      | append metrics => exact absurd rfl hr
      | empty => exact absurd rfl hr

/-- C2 (as amended): after a `Refresh` of a state between calls, for every sequence of
StatusCounterIncrement, StatusCounterRead, MetricsStoreAppend and MetricsStoreEmpty calls
that holds at most `maxInt` calls StatusCounterIncrement(key), StatusCounterRead(key)
returns exactly the number of those calls; so it returns 0 when there is none, and `n`
further increments of the key (3 in the EventLimit case) raise the value read by `n`. -/
theorem C2_read_counts_increments (ops : List (Op V)) (key : String) (s : State D V)
    (hidle : Idle s) (hnr : ∀ o ∈ ops, o.isRefresh = false)
    (hbound : (countIncrements key ops : Int) ≤ maxInt) :
    readAfterRefresh ops key s = .ok (countIncrements key ops : Int) ∧
      (countIncrements key ops = 0 → readAfterRefresh ops key s = .ok 0) ∧
      ∀ n : Nat, (countIncrements key ops : Int) + n ≤ maxInt →
        readAfterRefresh (ops ++ List.replicate n (Op.increment key)) key s
          = .ok ((countIncrements key ops : Int) + n) := by
  have hmain : readAfterRefresh ops key s = .ok (countIncrements key ops : Int) := by
    rw [readAfterRefresh_eq ops key s hidle hnr]
    have hin : InRange (countIncrements key ops : Int) := by
      unfold InRange minInt
      exact ⟨by omega, hbound⟩
    rw [wrapInt_of_inRange _ hin]
  refine ⟨hmain, ?_, ?_⟩
  · intro hz
    rw [hmain, hz]
    rfl
  · intro n hn
    have hnr2 : ∀ o ∈ ops ++ List.replicate n (Op.increment key), o.isRefresh = false := by
      intro o ho
      rcases List.mem_append.mp ho with h | h
      · exact hnr o h
      · exact isRefresh_replicate key n o h
    rw [readAfterRefresh_eq _ key s hidle hnr2, countIncrements_append,
      countIncrements_replicate]
    have hin : InRange ((countIncrements key ops + n : Nat) : Int) := by
      unfold InRange minInt
      push_cast
      exact ⟨by omega, hn⟩
    rw [wrapInt_of_inRange _ hin]
    push_cast
    rfl

/-- C4: for every list `bs` of batches and every order of completion `order` (a
permutation of `bs`), calling `MetricsStoreAppend` once per batch in that order on an
empty store returns and leaves exactly the batches of `order`, in that order: as many as
in `bs`, and a permutation of `bs` (none lost, none duplicated). -/
theorem C4_appends_keep_every_batch (bs order : List (Metrics V)) (s : State D V)
    (hperm : order.Perm bs) (hlock : s.MetricsStore.locked = false)
    (hempty : s.MetricsStore.Data = []) :
    ∃ t, runOps (order.map Op.append) s = .ok t ∧
      t.MetricsStore.Data = order ∧
      t.MetricsStore.Data.length = bs.length ∧
      t.MetricsStore.Data.Perm bs := by
  obtain ⟨t, hrun, _, hdata⟩ := runOps_appends order s hlock
  rw [hempty, List.nil_append] at hdata
  refine ⟨t, hrun, hdata, ?_, ?_⟩
  · rw [hdata]
    exact hperm.length_eq
  · rw [hdata]
    exact hperm

/-- C7: on a state between calls whose counters are of type `int` and none of which is
at the largest int, each of StatusCounterIncrement, StatusCounterRead, MetricsStoreAppend
and MetricsStoreEmpty returns and leaves no counter lower than before; the last three
leave the counter map unchanged. -/
theorem C7_counters_never_decrease (o : Op V) (s : State D V) (hop : o.isRefresh = false)
    (hidle : Idle s) (halloc : Allocated s) (htyped : WellTyped s)
    (hmax : ∀ k, counterValue s k ≠ maxInt) :
    ∃ t, o.step s = .ok t ∧
      (∀ k, counterValue s k ≤ counterValue t k) ∧
      (o.isIncrement = false → t.FlexStatusCounter.M = s.FlexStatusCounter.M) := by
  obtain ⟨t, hstep, _, _, hval, hsame⟩ := step_spec o s hop hidle halloc
  refine ⟨t, hstep, ?_, hsame⟩
  intro k
  rw [hval k]
  split
  · have hin := counterValue_inRange s htyped k
    have hlt : counterValue s k < maxInt := lt_of_le_of_ne hin.2 (hmax k)
    rw [wrapInt_succ_of_lt _ hin hlt]
    omega
  · exact le_refl _

/-- C8: evaluation of the four writers.  `Refresh` never takes the counter mutex: from
every state it returns with the mutex as it found it and four writes to the counter map
recorded with the lock state it found; from the initial state those writes are made with
the mutex free.  StatusCounterIncrement, MetricsStoreAppend and MetricsStoreEmpty from the
same state write with the mutex held and return with it released. -/
theorem C8_refresh_writes_without_lock :
    (∀ s : State Unit Unit, ∃ t, Refresh s = .ok t ∧
      t.FlexStatusCounter.locked = s.FlexStatusCounter.locked ∧
      t.history = s.history ++
        List.replicate 4 ⟨Shared.statusCounters, s.FlexStatusCounter.locked⟩) ∧
    (∃ t, Refresh (initState Unit ()) = .ok t ∧
      t.history = List.replicate 4 ⟨Shared.statusCounters, false⟩ ∧
      allGuarded t.history = false) ∧
    (∃ t, StatusCounterIncrement "EventCount" (initState Unit ()) = .ok t ∧
      t.history = [⟨Shared.statusCounters, true⟩] ∧ allGuarded t.history = true ∧
      t.FlexStatusCounter.locked = false) ∧
    (∃ t, MetricsStoreAppend (sampleBatch 1) (initState Unit ()) = .ok t ∧
      t.history = [⟨Shared.metricsStore, true⟩] ∧ allGuarded t.history = true ∧
      t.MetricsStore.locked = false) ∧
    (∃ t, MetricsStoreEmpty (initState Unit ()) = .ok t ∧
      t.history = [⟨Shared.metricsStore, true⟩] ∧ allGuarded t.history = true ∧
      t.MetricsStore.locked = false) := by
  refine ⟨fun s => ⟨_, refresh_eval s, rfl, rfl⟩, ⟨_, refresh_eval _, rfl, rfl⟩, ?_, ?_, ?_⟩
  · exact ⟨_, increment_eval "EventCount" _ [] rfl rfl, rfl, rfl, rfl⟩
  · exact ⟨_, append_eval _ _ rfl, rfl, rfl, rfl⟩
  · exact ⟨_, empty_eval _ rfl, rfl, rfl, rfl⟩

/-- C10: in every state reachable from the initial state by calls of the five operations
the counter map is allocated, and `StatusCounterIncrement` does not fail with a write to a
nil map for any key: it returns. -/
theorem C10_counter_map_allocated (d : D) (s : State D V) (hreach : Reachable d s) :
    Allocated s ∧
      ∀ key, StatusCounterIncrement key s ≠ .error .nilMapWrite ∧
        ∃ t, StatusCounterIncrement key s = .ok t := by
  obtain ⟨hidle, halloc⟩ := reachable_inv d s hreach
  refine ⟨halloc, fun key => ?_⟩
  obtain ⟨t, hrun, _⟩ := increment_spec key s hidle.1 halloc
  refine ⟨?_, t, hrun⟩
  rw [hrun]
  intro h
  cases h

end SequenceClaims

/-! ## Concrete instances -/

section Instances

theorem sampleState_wellTyped : WellTyped sampleState := by
  intro p hp
  simp only [List.mem_cons, List.mem_singleton, List.not_mem_nil, or_false] at hp
  rcases hp with h | h <;> rw [h] <;> simp [InRange, minInt, maxInt]

theorem sampleState_values (k : String) :
    counterValue sampleState k = 41 ∨ counterValue sampleState k = 7 ∨
      counterValue sampleState k = 0 := by
  simp only [counterValue, sampleState, mapIndex, List.lookup]
  split
  · exact Or.inl rfl
  · split
    · exact Or.inr (Or.inl rfl)
    · exact Or.inr (Or.inr rfl)

theorem sampleState_eventCount : counterValue sampleState "EventCount" = 41 := by
  simp [counterValue, sampleState, mapIndex, List.lookup]

theorem sampleState_below_max (k : String) : counterValue sampleState k ≠ maxInt := by
  rcases sampleState_values k with h | h | h <;> rw [h] <;> simp [maxInt]

theorem sampleOps_noRefresh : ∀ o ∈ sampleOps, o.isRefresh = false := by
  intro o ho
  simp only [sampleOps, List.mem_cons, List.mem_singleton, List.not_mem_nil, or_false] at ho
  rcases ho with h | h | h | h | h | h | h <;> rw [h] <;> rfl

theorem sampleOps_count : countIncrements "EventDropCount" sampleOps = 3 := by
  simp [countIncrements, sampleOps, Op.incrementsKey, List.countP_cons]

theorem sampleReached_step :
    (Op.increment "EventCount" : Op Unit).step (initState Unit ()) = .ok sampleReached := by
  have h := increment_eval "EventCount" (initState Unit ()) [] rfl rfl
  simp only [Op.step, h, sampleReached, initState, mapIndex, List.lookup, List.filter,
    Option.getD, wrapInt]
  rfl

/-- C1 at `sampleState`: incrementing EventCount from 41 gives 42. -/
theorem C1_witness :
    (WellTyped sampleState ∧ counterValue sampleState "EventCount" < maxInt) ∧
      ∃ t, StatusCounterIncrement "EventCount" sampleState = .ok t ∧
        counterValue t "EventCount" = 42 := by
  have hlt : counterValue sampleState "EventCount" < maxInt := by
    rw [sampleState_eventCount]
    simp [maxInt]
  refine ⟨⟨sampleState_wellTyped, hlt⟩, ?_⟩
  obtain ⟨t, hrun, hval, _⟩ :=
    C1_increment_adds_one "EventCount" sampleState rfl rfl sampleState_wellTyped hlt
  refine ⟨t, hrun, ?_⟩
  rw [hval, sampleState_eventCount]
  rfl

/-- C2 as stated fails: after a `Refresh` of the initial state, 2^63 calls
StatusCounterIncrement("EventDropCount") wrap the counter around, and
StatusCounterRead("EventDropCount") returns -2^63, not the number of calls. -/
theorem C2_counterexample :
    readAfterRefresh (List.replicate 9223372036854775808 (Op.increment "EventDropCount"))
        "EventDropCount" (initState Unit ()) = .ok (-9223372036854775808) ∧
      countIncrements "EventDropCount"
        (List.replicate 9223372036854775808 (Op.increment "EventDropCount" : Op Unit))
          = 9223372036854775808 ∧
      readAfterRefresh (List.replicate 9223372036854775808 (Op.increment "EventDropCount"))
        "EventDropCount" (initState Unit ()) ≠
        .ok ((countIncrements "EventDropCount" (List.replicate 9223372036854775808
          (Op.increment "EventDropCount" : Op Unit)) : Nat) : Int) := by
  have h : wrapInt ((9223372036854775808 : Nat) : Int) = -9223372036854775808 := by
    unfold wrapInt
    norm_num
  have hread : readAfterRefresh
      (List.replicate 9223372036854775808 (Op.increment "EventDropCount"))
      "EventDropCount" (initState Unit ()) = .ok (-9223372036854775808) := by
    rw [readAfterRefresh_eq _ _ _ (idle_init ()) (isRefresh_replicate _ _),
      countIncrements_replicate, h]
  refine ⟨hread, countIncrements_replicate _ _, ?_⟩
  rw [hread, countIncrements_replicate]
  intro hne
  injection hne with hne
  omega

/-- C2 at `sampleState` and `sampleOps`: three increments of EventDropCount are read as 3. -/
theorem C2_witness :
    (Idle sampleState ∧ (countIncrements "EventDropCount" sampleOps : Int) ≤ maxInt) ∧
      readAfterRefresh sampleOps "EventDropCount" sampleState = .ok 3 := by
  have hb : (countIncrements "EventDropCount" sampleOps : Int) ≤ maxInt := by
    rw [sampleOps_count]
    simp [maxInt]
  refine ⟨⟨⟨rfl, rfl⟩, hb⟩, ?_⟩
  have h := (C2_read_counts_increments sampleOps "EventDropCount" sampleState ⟨rfl, rfl⟩
    sampleOps_noRefresh hb).1
  rw [h, sampleOps_count]
  rfl

/-- C3 at `sampleState`: a third batch is stored behind the two present. -/
theorem C3_witness :
    sampleState.MetricsStore.locked = false ∧
      ∃ t, MetricsStoreAppend (sampleBatch 3) sampleState = .ok t ∧
        t.MetricsStore.Data = [sampleBatch 1, sampleBatch 2, sampleBatch 3] := by
  refine ⟨rfl, ?_⟩
  obtain ⟨t, hrun, hdata, _⟩ := C3_append_extends_store (sampleBatch 3) sampleState rfl
  exact ⟨t, hrun, hdata⟩

/-- C4 at ten batches completing in reverse order. -/
theorem C4_witness :
    tenBatches.reverse.Perm tenBatches ∧
      ∃ t, runOps (tenBatches.reverse.map Op.append) (initState Unit ()) = .ok t ∧
        t.MetricsStore.Data = tenBatches.reverse ∧ t.MetricsStore.Data.length = 10 := by
  refine ⟨List.reverse_perm _, ?_⟩
  obtain ⟨t, hrun, hdata, hlen, _⟩ := C4_appends_keep_every_batch tenBatches
    tenBatches.reverse (initState Unit ()) (List.reverse_perm _) rfl rfl
  exact ⟨t, hrun, hdata, hlen⟩

/-- C5 at `sampleState`: the two stored batches are dropped, then one is stored. -/
theorem C5_witness :
    sampleState.MetricsStore.locked = false ∧
      ∃ t, MetricsStoreEmpty sampleState = .ok t ∧ t.MetricsStore.Data = [] ∧
        ∃ u, MetricsStoreAppend (sampleBatch 3) t = .ok u ∧
          u.MetricsStore.Data = [sampleBatch 3] := by
  refine ⟨rfl, ?_⟩
  obtain ⟨t, hrun, hdata, _, hu⟩ := C5_empty_resets_store (sampleBatch 3) sampleState rfl
  exact ⟨t, hrun, hdata, hu⟩

/-- C6 at `sampleState`, where EventCount was 41: it reads 0 after `Refresh`. -/
theorem C6_witness :
    (sampleState.FlexStatusCounter.locked = false ∧
      counterValue sampleState "EventCount" = 41) ∧
      ∃ t, Refresh sampleState = .ok t ∧ StatusCounterRead "EventCount" t = .ok (0, t) := by
  refine ⟨⟨rfl, sampleState_eventCount⟩, ?_⟩
  obtain ⟨t, hrun, _, _, hread⟩ := C6_refresh_resets_counters sampleState rfl
  exact ⟨t, hrun, hread "EventCount"⟩

/-- C7 at `sampleState` and an increment of EventCount. -/
theorem C7_witness :
    (Idle sampleState ∧ Allocated sampleState ∧ WellTyped sampleState ∧
      ∀ k, counterValue sampleState k ≠ maxInt) ∧
      ∃ t, (Op.increment "EventCount" : Op Unit).step sampleState = .ok t ∧
        ∀ k, counterValue sampleState k ≤ counterValue t k := by
  refine ⟨⟨⟨rfl, rfl⟩, rfl, sampleState_wellTyped, sampleState_below_max⟩, ?_⟩
  obtain ⟨t, hrun, hle, _⟩ := C7_counters_never_decrease (Op.increment "EventCount")
    sampleState rfl ⟨rfl, rfl⟩ rfl sampleState_wellTyped sampleState_below_max
  exact ⟨t, hrun, hle⟩

/-- C10 at the state reached by one increment from the initial state. -/
theorem C10_witness :
    Reachable () sampleReached ∧ Allocated sampleReached ∧
      ∃ t, StatusCounterIncrement "EventDropCount" sampleReached = .ok t := by
  have hr : Reachable () sampleReached :=
    Reachable.step (Op.increment "EventCount") (initState Unit ()) sampleReached
      Reachable.init sampleReached_step
  obtain ⟨ha, hk⟩ := C10_counter_map_allocated () sampleReached hr
  exact ⟨hr, ha, (hk "EventDropCount").2⟩

end Instances

end Load
